import Mathlib

/-!
# Verification of the tic-tac-toe move validator (`src/ttt.cpp`)

Shallow embedding of the game engine in `ttt.cpp`: the `TicTacToe` class
(constructor, `CheckForWin`, `MakeMove`, `ConvertMoveResultToGameResult`)
and the move runner `playTicTacToe`.  C++ `int` values are embedded as
`Int`; `std::vector` indexing is embedded fallibly (`Option`), so that an
out-of-bounds access — undefined behaviour in the source — surfaces as
`none` and a defined execution as `some`.
-/

/-- `enum class MoveResult` from `ttt.cpp`. -/
inductive MoveResult where
  | WIN
  | INVALID
  | DRAW
  | CONTINUE
  | NUM_MOVE_RESULT
deriving DecidableEq, Repr

/-- `struct Location` from `ttt.cpp`: an immutable (row, col) pair of C++ `int`s. -/
structure Location where
  row : Int
  col : Int
deriving DecidableEq, Repr

/-- `typedef int Player`. -/
abbrev Player := Int

/-- `typedef vector<vector<Player>> board_t`. -/
abbrev Board := List (List Player)

/-- `const Player NO_MOVE = 0`: the empty-cell sentinel. -/
def NO_MOVE : Player := 0

/-- `static constexpr int NEXT_PLAYER = 0`. -/
def NEXT_PLAYER : Int := 0

/-- Reading `board[r][c]` on a `vector<vector<Player>>`: `some` value when both
indices are in bounds, `none` (undefined behaviour in the C++ source) otherwise.
The row index is checked first, as `board[r]` is evaluated first. -/
def vread (b : Board) (r c : Int) : Option Player :=
  if r < 0 then none
  else
    match b[r.toNat]? with
    | none => none
    | some row => if c < 0 then none else row[c.toNat]?

/-- Writing `board[r][c] = v`: `some` updated board when both indices are in
bounds, `none` (undefined behaviour) otherwise. -/
def vwrite (b : Board) (r c : Int) (v : Player) : Option Board :=
  if r < 0 then none
  else
    match b[r.toNat]? with
    | none => none
    | some row =>
      if c < 0 then none
      else if c.toNat < row.length then some (b.set r.toNat (row.set c.toNat v))
      else none

/-- One conditional update of a win flag inside `CheckForWin`'s loop:
`if (flag) { flag = board-read == player; }`.  The read happens only when the
flag is still set; a failed read is undefined behaviour (`none`). -/
def flagStep (flag : Bool) (read : Option Player) (p : Player) : Option Bool :=
  if flag then read.map (fun v => v == p) else some false

/-- The `for (int idx = 0; idx < board_size; ++idx)` loop of
`TicTacToe::CheckForWin`, with `n` remaining iterations and current index
`idx`.  Each iteration updates `row_win` from `board[location.row][idx]`,
and `col_win` and `diag_win` both from `board[idx][location.col]` (the
source reads the column for the diagonal flag as well), then returns
`CONTINUE` early when no flag survives; a completed loop returns `WIN`. -/
def checkLoop (b : Board) (loc : Location) (p : Player) :
    Nat → Nat → Bool → Bool → Bool → Option MoveResult
  | 0, _, _, _, _ => some MoveResult.WIN
  | n + 1, idx, row_win, col_win, diag_win =>
    (flagStep row_win (vread b loc.row (idx : Int)) p).bind fun rw =>
      (flagStep col_win (vread b (idx : Int) loc.col) p).bind fun cw =>
        (flagStep diag_win (vread b (idx : Int) loc.col) p).bind fun dw =>
          if !(rw || cw || dw) then some MoveResult.CONTINUE
          else checkLoop b loc p n (idx + 1) rw cw dw

/-- `TicTacToe::CheckForWin(board, location, player)`: seeds `row_win` and
`col_win` true, seeds `diag_win` true exactly when the location lies on the
main or anti-diagonal, and runs the scan loop. -/
def CheckForWin (board_size : Int) (b : Board) (loc : Location) (p : Player) :
    Option MoveResult :=
  let diag_win : Bool :=
    (loc.row == loc.col) || (loc.row == board_size - loc.col - 1)
  checkLoop b loc p board_size.toNat 0 true true diag_win

/-- The mutable state of a `TicTacToe` object: `board`, `valid_move_count`,
the `const` members `board_size`, `num_players` (with `CATS_GAME =
num_players + 1`), and `whose_turn`. -/
structure GameState where
  board : Board
  valid_move_count : Nat
  board_size : Int
  num_players : Int
  whose_turn : Int
deriving DecidableEq, Repr

/-- The loop body of the constructor `TicTacToe::TicTacToe`:
`for (int i = 0; i < board_size; ++i) board[i] = initial_row;` with `n`
iterations left and current index `i`.  Assigning `board[i]` on a vector of
insufficient size is out of bounds (`none`). -/
def ctorLoop (initial_row : List Player) : Nat → Nat → Board → Option Board
  | 0, _, b => some b
  | n + 1, i, b =>
    if i < b.length then ctorLoop initial_row n (i + 1) (b.set i initial_row)
    else none

/-- `TicTacToe::TicTacToe(boardSize, numberPlayers)`: the member `board` is
default-constructed empty, then the constructor body assigns
`board[i] = initial_row` for each `i` below `boardSize` and sets
`whose_turn = 1`.  `none` when any of those assignments is out of bounds. -/
def TicTacToeConstructor (boardSize numberPlayers : Int) : Option GameState :=
  (ctorLoop (List.replicate boardSize.toNat NO_MOVE) boardSize.toNat 0 []).map
    fun b =>
      { board := b
        valid_move_count := 0
        board_size := boardSize
        num_players := numberPlayers
        whose_turn := 1 }

/-- The state the constructor intends to produce, and the spec's lifecycle
start ("GameState created once at game start (empty board, turn = player
1)"): an `N × N` grid of `NO_MOVE`, zero valid moves, player 1 to move. -/
def initState (boardSize numberPlayers : Int) : GameState :=
  { board :=
      List.replicate boardSize.toNat (List.replicate boardSize.toNat NO_MOVE)
    valid_move_count := 0
    board_size := boardSize
    num_players := numberPlayers
    whose_turn := 1 }

/-- `(idx < 0) || (idx >= this->board_size)`: the `IsOffBoard` lambda inside
`MakeMove`. -/
def IsOffBoard (board_size idx : Int) : Bool :=
  decide (idx < 0) || decide (board_size ≤ idx)

/-- The turn-advancement statement of `MakeMove`:
`whose_turn = (whose_turn % num_players) + 1` (C++ `%` on `int` is the
truncated-division remainder, `Int.tmod`). -/
def advanceTurn (s : GameState) : GameState :=
  { s with whose_turn := Int.tmod s.whose_turn s.num_players + 1 }

/-- The two accepted-move mutations of `MakeMove`: `++valid_move_count` and
the board update `board[location.row][location.col] = player` (the updated
board `b2` is passed in). -/
def applyWrite (s : GameState) (b2 : Board) : GameState :=
  { s with valid_move_count := s.valid_move_count + 1, board := b2 }

/-- `TicTacToe::MakeMove(player, location)`.  Computes `wrong_player`,
advances `whose_turn` circularly, computes `off_board`, then
unconditionally reads `board[location.row][location.col]` for
`already_filled` — an out-of-bounds read (`none`) whenever the location is
off the board.  Then: any failed check ⇒ `INVALID`; else a full valid-move
count ⇒ `DRAW`; else write the cell, bump the count and run
`CheckForWin`. -/
def MakeMove (s : GameState) (player : Player) (loc : Location) :
    Option (MoveResult × GameState) :=
  let wrong_player : Bool := player != s.whose_turn
  let s1 : GameState := advanceTurn s
  let off_board : Bool :=
    IsOffBoard s1.board_size loc.row || IsOffBoard s1.board_size loc.col
  (vread s1.board loc.row loc.col).bind fun cell =>
    let already_filled : Bool := cell != NO_MOVE
    if wrong_player || off_board || already_filled then
      some (MoveResult.INVALID, s1)
    else if s1.valid_move_count = (s1.board_size * s1.board_size).toNat then
      some (MoveResult.DRAW, s1)
    else
      (vwrite s1.board loc.row loc.col player).bind fun b2 =>
        (CheckForWin (applyWrite s1 b2).board_size (applyWrite s1 b2).board
            loc player).map
          fun r => (r, applyWrite s1 b2)

/-- `TicTacToe::ConvertMoveResultToGameResult(result, player)`: `WIN ↦
player`, `DRAW ↦ CATS_GAME = num_players + 1`, `INVALID ↦ -player`,
`CONTINUE ↦ NEXT_PLAYER = 0`; the unreachable `NUM_MOVE_RESULT` case falls
through to `return 0`. -/
def ConvertMoveResultToGameResult (s : GameState) (result : MoveResult)
    (player : Player) : Int :=
  match result with
  | MoveResult.WIN => player
  | MoveResult.DRAW => s.num_players + 1
  | MoveResult.INVALID => -player
  | MoveResult.CONTINUE => NEXT_PLAYER
  | MoveResult.NUM_MOVE_RESULT => 0

/-- One row of the `moves` input to `playTicTacToe`:
`move[0] = player, move[1] = row, move[2] = col`. -/
structure Move where
  player : Int
  row : Int
  col : Int
deriving DecidableEq, Repr

/-- `playTicTacToe(game, moves)`: feed each move to `MakeMove`, convert the
result to a status, collect the statuses in order, and break as soon as a
status exceeds `NEXT_PLAYER = 0`.  `none` when some processed move hits
undefined behaviour. -/
def playTicTacToe (s : GameState) : List Move → Option (List Int)
  | [] => some []
  | m :: rest =>
    (MakeMove s m.player ⟨m.row, m.col⟩).bind fun rs =>
      let game_status := ConvertMoveResultToGameResult rs.2 rs.1 m.player
      if game_status > NEXT_PLAYER then some [game_status]
      else (playTicTacToe rs.2 rest).map fun statuses => game_status :: statuses

/-- Weight of one cell when counting occupied cells: `0` for the empty
sentinel, `1` for a player mark. -/
def cellWeight (c : Player) : Nat := if c = NO_MOVE then 0 else 1

/-- Number of occupied cells in one board row. -/
def rowCount (row : List Player) : Nat := (row.map cellWeight).sum

/-- Number of occupied cells on the whole board. -/
def occupiedCount (b : Board) : Nat := (b.map rowCount).sum

/-- Structural well-formedness of a game state for parameters `N`, `P`:
the `const` members hold the construction parameters, the board is an
`N × N` grid, `valid_move_count` counts the occupied cells, and the turn
holder is at least 1. -/
def WellFormed (N P : Int) (s : GameState) : Prop :=
  s.board_size = N ∧ s.num_players = P ∧
  s.board.length = N.toNat ∧
  (∀ row ∈ s.board, row.length = N.toNat) ∧
  s.valid_move_count = occupiedCount s.board ∧
  1 ≤ s.whose_turn

/-- States reachable from the intended initial state by defined `MakeMove`
calls (any player, any location, valid or invalid). -/
inductive Reachable (N P : Int) : GameState → Prop
  | init : Reachable N P (initState N P)
  | step {s : GameState} {p : Player} {loc : Location} {r : MoveResult}
      {s' : GameState} :
      Reachable N P s → MakeMove s p loc = some (r, s') → Reachable N P s'

/-! ## Helper lemmas -/

@[simp] theorem advanceTurn_board (s : GameState) :
    (advanceTurn s).board = s.board := rfl

@[simp] theorem advanceTurn_board_size (s : GameState) :
    (advanceTurn s).board_size = s.board_size := rfl

@[simp] theorem advanceTurn_num_players (s : GameState) :
    (advanceTurn s).num_players = s.num_players := rfl

@[simp] theorem advanceTurn_valid_move_count (s : GameState) :
    (advanceTurn s).valid_move_count = s.valid_move_count := rfl

@[simp] theorem advanceTurn_whose_turn (s : GameState) :
    (advanceTurn s).whose_turn = Int.tmod s.whose_turn s.num_players + 1 := rfl

@[simp] theorem applyWrite_board (s : GameState) (b2 : Board) :
    (applyWrite s b2).board = b2 := rfl

@[simp] theorem applyWrite_board_size (s : GameState) (b2 : Board) :
    (applyWrite s b2).board_size = s.board_size := rfl

@[simp] theorem applyWrite_num_players (s : GameState) (b2 : Board) :
    (applyWrite s b2).num_players = s.num_players := rfl

@[simp] theorem applyWrite_valid_move_count (s : GameState) (b2 : Board) :
    (applyWrite s b2).valid_move_count = s.valid_move_count + 1 := rfl

@[simp] theorem applyWrite_whose_turn (s : GameState) (b2 : Board) :
    (applyWrite s b2).whose_turn = s.whose_turn := rfl

theorem flagStep_some (flag : Bool) (v p : Player) :
    flagStep flag (some v) p = some (flag && (v == p)) := by
  cases flag <;> simp [flagStep]

theorem vread_eq_some {b : Board} {r c : Int} {v : Player}
    (h : vread b r c = some v) :
    ∃ row, 0 ≤ r ∧ 0 ≤ c ∧ b[r.toNat]? = some row ∧ row[c.toNat]? = some v := by
  unfold vread at h
  split at h
  · cases h
  · rename_i hr
    split at h
    · cases h
    · rename_i row hrow
      split at h
      · cases h
      · rename_i hc
        exact ⟨row, by omega, by omega, hrow, h⟩

theorem vread_of_parts {b : Board} {r c : Int} {row : List Player} {v : Player}
    (hr : 0 ≤ r) (hc : 0 ≤ c) (hrow : b[r.toNat]? = some row)
    (hv : row[c.toNat]? = some v) : vread b r c = some v := by
  unfold vread
  rw [if_neg (by omega), hrow]
  show (if c < 0 then none else row[c.toNat]?) = some v
  rw [if_neg (by omega)]
  exact hv

theorem vwrite_of_parts {b : Board} {r c : Int} {row : List Player}
    {v : Player} (w : Player) (hr : 0 ≤ r) (hc : 0 ≤ c)
    (hrow : b[r.toNat]? = some row) (hv : row[c.toNat]? = some v) :
    vwrite b r c w = some (b.set r.toNat (row.set c.toNat w)) := by
  have hlen : c.toNat < row.length := (List.getElem?_eq_some.mp hv).1
  unfold vwrite
  rw [if_neg (by omega), hrow]
  show (if c < 0 then none
      else if c.toNat < row.length then
        some (b.set r.toNat (row.set c.toNat w))
      else none) =
    some (b.set r.toNat (row.set c.toNat w))
  rw [if_neg (by omega), if_pos hlen]

theorem vwrite_eq_some {b : Board} {r c : Int} {v : Player} {b2 : Board}
    (h : vwrite b r c v = some b2) :
    ∃ row, 0 ≤ r ∧ 0 ≤ c ∧ b[r.toNat]? = some row ∧ c.toNat < row.length ∧
      b2 = b.set r.toNat (row.set c.toNat v) := by
  unfold vwrite at h
  split at h
  · cases h
  · rename_i hr
    split at h
    · cases h
    · rename_i row hrow
      split at h
      · cases h
      · split at h
        · rename_i hc hlen
          exact ⟨row, by omega, by omega, hrow, hlen, (Option.some.injEq _ _ ▸ h).symm⟩
        · cases h

theorem checkLoop_result {b : Board} {loc : Location} {p : Player} :
    ∀ (n idx : Nat) (rw cw dw : Bool) (r : MoveResult),
      checkLoop b loc p n idx rw cw dw = some r →
      r = MoveResult.WIN ∨ r = MoveResult.CONTINUE := by
  intro n
  induction n with
  | zero =>
    intro idx rw cw dw r h
    simp only [checkLoop, Option.some.injEq] at h
    exact Or.inl h.symm
  | succ n ih =>
    intro idx rw cw dw r h
    unfold checkLoop at h
    cases h1 : flagStep rw (vread b loc.row (idx : Int)) p with
    | none => rw [h1] at h; simp at h
    | some rw' =>
      rw [h1] at h
      simp only [Option.some_bind] at h
      cases h2 : flagStep cw (vread b (idx : Int) loc.col) p with
      | none => rw [h2] at h; simp at h
      | some cw' =>
        rw [h2] at h
        simp only [Option.some_bind] at h
        cases h3 : flagStep dw (vread b (idx : Int) loc.col) p with
        | none => rw [h3] at h; simp at h
        | some dw' =>
          rw [h3] at h
          simp only [Option.some_bind] at h
          split at h
          · exact Or.inr (Option.some.injEq _ _ ▸ h).symm
          · exact ih (idx + 1) rw' cw' dw' r h

theorem vread_total {b : Board} {N : Nat} (hb : b.length = N)
    (hrows : ∀ row ∈ b, row.length = N) {r c : Int} (hr : 0 ≤ r)
    (hrN : r.toNat < N) (hc : 0 ≤ c) (hcN : c.toNat < N) :
    ∃ v, vread b r c = some v := by
  have hrb : r.toNat < b.length := by omega
  have hrowmem : b[r.toNat] ∈ b := List.getElem_mem hrb
  have hlen : c.toNat < b[r.toNat].length := by rw [hrows _ hrowmem]; omega
  exact ⟨b[r.toNat][c.toNat],
    vread_of_parts hr hc (List.getElem?_eq_getElem hrb)
      (List.getElem?_eq_getElem hlen)⟩

theorem checkLoop_isSome {b : Board} {loc : Location} {p : Player} {N : Nat}
    (hb : b.length = N) (hrows : ∀ row ∈ b, row.length = N)
    (hr : 0 ≤ loc.row) (hrN : loc.row.toNat < N) (hc : 0 ≤ loc.col)
    (hcN : loc.col.toNat < N) :
    ∀ (n idx : Nat), idx + n ≤ N → ∀ (rw cw dw : Bool),
      (checkLoop b loc p n idx rw cw dw).isSome := by
  intro n
  induction n with
  | zero => intro idx _ rw cw dw; simp [checkLoop]
  | succ n ih =>
    intro idx hidx rw cw dw
    have hlt : idx < N := by omega
    obtain ⟨v1, hv1⟩ :=
      vread_total hb hrows hr hrN (c := (idx : Int)) (by omega) (by simpa)
    obtain ⟨v2, hv2⟩ :=
      vread_total hb hrows (r := (idx : Int)) (by omega) (by simpa) hc hcN
    unfold checkLoop
    simp only [hv1, hv2, flagStep_some, Option.some_bind]
    split
    · simp
    · exact ih (idx + 1) (by omega) _ _ _

/-- Dissection of a defined `MakeMove` call: the constant members are
preserved, the turn always advances by the circular-increment formula, and
either the move is rejected (or the dead draw branch taken) leaving the
board and count unchanged, or the move is accepted by the expected player
into an empty in-bounds cell, which is overwritten with `p` while the count
increments. -/
theorem makeMove_cases {s : GameState} {p : Player} {loc : Location}
    {r : MoveResult} {s' : GameState}
    (h : MakeMove s p loc = some (r, s')) :
    s'.board_size = s.board_size ∧ s'.num_players = s.num_players ∧
    s'.whose_turn = Int.tmod s.whose_turn s.num_players + 1 ∧
    ((s'.board = s.board ∧ s'.valid_move_count = s.valid_move_count ∧
        (r = MoveResult.INVALID ∨ r = MoveResult.DRAW)) ∨
      (∃ row, 0 ≤ loc.row ∧ 0 ≤ loc.col ∧
        s.board[loc.row.toNat]? = some row ∧
        row[loc.col.toNat]? = some NO_MOVE ∧
        p = s.whose_turn ∧
        s.valid_move_count ≠ (s.board_size * s.board_size).toNat ∧
        s'.board = s.board.set loc.row.toNat (row.set loc.col.toNat p) ∧
        s'.valid_move_count = s.valid_move_count + 1 ∧
        (r = MoveResult.WIN ∨ r = MoveResult.CONTINUE))) := by
  unfold MakeMove at h
  simp only [advanceTurn_board, advanceTurn_board_size, advanceTurn_num_players,
    advanceTurn_valid_move_count, applyWrite_board, applyWrite_board_size] at h
  cases hcell : vread s.board loc.row loc.col with
  | none => rw [hcell] at h; simp at h
  | some cell =>
    rw [hcell] at h
    simp only [Option.some_bind] at h
    split at h
    · simp only [Option.some.injEq, Prod.mk.injEq] at h
      obtain ⟨rfl, rfl⟩ := h
      exact ⟨rfl, rfl, rfl, Or.inl ⟨rfl, rfl, Or.inl rfl⟩⟩
    · rename_i hvalid
      split at h
      · simp only [Option.some.injEq, Prod.mk.injEq] at h
        obtain ⟨rfl, rfl⟩ := h
        exact ⟨rfl, rfl, rfl, Or.inl ⟨rfl, rfl, Or.inr rfl⟩⟩
      · rename_i hcount
        cases hb2 : vwrite s.board loc.row loc.col p with
        | none => rw [hb2] at h; simp at h
        | some b2 =>
          rw [hb2] at h
          simp only [Option.some_bind] at h
          cases hres : CheckForWin s.board_size b2 loc p with
          | none => rw [hres] at h; simp at h
          | some res =>
            rw [hres] at h
            simp only [Option.map_some', Option.some.injEq,
              Prod.mk.injEq] at h
            obtain ⟨rfl, rfl⟩ := h
            simp only [Bool.or_eq_true, not_or, bne_iff_ne, ne_eq,
              Decidable.not_not, Bool.not_eq_true] at hvalid
            obtain ⟨⟨hwp, -, -⟩, hcell'⟩ := hvalid
            subst hcell'
            obtain ⟨row, hr0, hc0, hrow, hcn, hb2eq⟩ := vwrite_eq_some hb2
            obtain ⟨row', -, -, hrow', hcv⟩ := vread_eq_some hcell
            rw [hrow] at hrow'
            obtain rfl : row = row' := Option.some.injEq _ _ ▸ hrow'
            exact ⟨rfl, rfl, rfl, Or.inr ⟨row, hr0, hc0, hrow, hcv, hwp,
              hcount, hb2eq ▸ rfl, rfl,
              checkLoop_result _ _ _ _ _ _ hres⟩⟩

theorem vread_set_ne {b : Board} {rn cn : Nat} {row : List Player}
    (v : Player) (hrow : b[rn]? = some row) {r c : Int}
    (hne : ¬(0 ≤ r ∧ 0 ≤ c ∧ r.toNat = rn ∧ c.toNat = cn)) :
    vread (b.set rn (row.set cn v)) r c = vread b r c := by
  have hrn : rn < b.length := (List.getElem?_eq_some.mp hrow).1
  by_cases hr : r < 0
  · unfold vread
    rw [if_pos hr, if_pos hr]
  · by_cases hrn' : r.toNat = rn
    · subst hrn'
      unfold vread
      rw [if_neg hr, if_neg hr, List.getElem?_set_self hrn, hrow]
      show (if c < 0 then none else (row.set cn v)[c.toNat]?) =
        (if c < 0 then none else row[c.toNat]?)
      by_cases hc : c < 0
      · rw [if_pos hc, if_pos hc]
      · rw [if_neg hc, if_neg hc]
        have hcc : c.toNat ≠ cn := fun hceq => hne ⟨by omega, by omega, rfl, hceq⟩
        exact List.getElem?_set_ne (fun hh => hcc hh.symm)
    · unfold vread
      rw [if_neg hr, if_neg hr, List.getElem?_set_ne (fun hh => hrn' hh.symm)]

theorem checkForWin_result {bs : Int} {b : Board} {loc : Location}
    {p : Player} {r : MoveResult} (h : CheckForWin bs b loc p = some r) :
    r = MoveResult.WIN ∨ r = MoveResult.CONTINUE := by
  unfold CheckForWin at h
  exact checkLoop_result _ _ _ _ _ _ h

theorem sum_map_set {α : Type} (f : α → Nat) :
    ∀ (l : List α) (n : Nat) (x v : α), l[n]? = some v →
      ((l.set n x).map f).sum + f v = (l.map f).sum + f x := by
  intro l
  induction l with
  | nil => intro n x v h; simp at h
  | cons a t ih =>
    intro n x v h
    cases n with
    | zero =>
      obtain rfl : a = v := by simpa using h
      simp [List.set]
      omega
    | succ n =>
      have h' : t[n]? = some v := by simpa using h
      have hx := ih n x v h'
      simp only [List.set, List.map_cons, List.sum_cons]
      omega

theorem sum_map_const {α : Type} (f : α → Nat) (c : Nat) :
    ∀ l : List α, (∀ x ∈ l, f x = c) → (l.map f).sum = l.length * c := by
  intro l
  induction l with
  | nil => intro _; simp
  | cons a t ih =>
    intro hl
    have ha : f a = c := hl a (by simp)
    have ht := ih (fun x hx => hl x (by simp [hx]))
    simp only [List.map_cons, List.sum_cons, List.length_cons]
    rw [ha, ht]
    ring

theorem cellWeight_le_one (c : Player) : cellWeight c ≤ 1 := by
  unfold cellWeight
  split <;> omega

theorem rowCount_le (row : List Player) : rowCount row ≤ row.length := by
  induction row with
  | nil => simp [rowCount]
  | cons a t ih =>
    have := cellWeight_le_one a
    simp only [rowCount, List.map_cons, List.sum_cons, List.length_cons] at *
    omega

theorem rowCount_lt {row : List Player} {cn : Nat}
    (h : row[cn]? = some NO_MOVE) : rowCount row < row.length := by
  induction row generalizing cn with
  | nil => simp at h
  | cons a t ih =>
    cases cn with
    | zero =>
      obtain rfl : a = NO_MOVE := by simpa using h
      have h1 := rowCount_le t
      have h2 : rowCount (NO_MOVE :: t) = rowCount t := by
        simp only [rowCount, List.map_cons, List.sum_cons,
          show cellWeight NO_MOVE = 0 from rfl]
        omega
      rw [h2]
      simp only [List.length_cons]
      omega
    | succ n =>
      have h' : t[n]? = some NO_MOVE := by simpa using h
      have := ih h'
      have := cellWeight_le_one a
      simp only [rowCount, List.map_cons, List.sum_cons,
        List.length_cons] at *
      omega

theorem occupiedCount_lt {b : Board} {N rn cn : Nat} {row : List Player}
    (hrow : b[rn]? = some row) (hcv : row[cn]? = some NO_MOVE)
    (hrows : ∀ r ∈ b, r.length = N) :
    occupiedCount b < b.length * N := by
  have hlt : (b.map rowCount).sum < (b.map List.length).sum := by
    apply List.sum_lt_sum
    · intro r _
      exact rowCount_le r
    · refine ⟨row, List.getElem?_mem hrow, ?_⟩
      have := rowCount_lt hcv
      omega
  have hsum : (b.map List.length).sum = b.length * N :=
    sum_map_const _ _ _ hrows
  unfold occupiedCount
  omega

theorem occupiedCount_write {b : Board} {rn cn : Nat} {row : List Player}
    {p : Player} (hrow : b[rn]? = some row) (hcv : row[cn]? = some NO_MOVE)
    (hp : p ≠ NO_MOVE) :
    occupiedCount (b.set rn (row.set cn p)) = occupiedCount b + 1 := by
  have h1 := sum_map_set cellWeight row cn p NO_MOVE hcv
  have h2 := sum_map_set rowCount b rn (row.set cn p) row hrow
  have hw0 : cellWeight NO_MOVE = 0 := rfl
  have hw1 : cellWeight p = 1 := by simp [cellWeight, hp]
  rw [hw0, hw1] at h1
  have h3 : rowCount (row.set cn p) = ((row.set cn p).map cellWeight).sum := rfl
  have h4 : rowCount row = (row.map cellWeight).sum := rfl
  unfold occupiedCount
  omega

/-- The well-formedness invariant is preserved by every defined `MakeMove`
call. -/
theorem wellFormed_step {N P : Int} {s : GameState} {p : Player}
    {loc : Location} {r : MoveResult} {s' : GameState}
    (hwf : WellFormed N P s) (hmm : MakeMove s p loc = some (r, s')) :
    WellFormed N P s' := by
  obtain ⟨hbs, hnp, hlen, hrows, hcnt, hturn⟩ := hwf
  obtain ⟨hbs', hnp', hturn', hcases⟩ := makeMove_cases hmm
  have hmod : 0 ≤ Int.tmod s.whose_turn s.num_players :=
    Int.tmod_nonneg _ (by omega)
  rcases hcases with ⟨hb, hvc, -⟩ | ⟨row, -, -, hrow, hcv, hp, -, hb, hvc, -⟩
  · refine ⟨?_, ?_, ?_, ?_, ?_, ?_⟩
    · rw [hbs']
      exact hbs
    · rw [hnp']
      exact hnp
    · rw [hb]
      exact hlen
    · rw [hb]
      exact hrows
    · rw [hvc, hb]
      exact hcnt
    · rw [hturn']
      omega
  · refine ⟨?_, ?_, ?_, ?_, ?_, ?_⟩
    · rw [hbs']
      exact hbs
    · rw [hnp']
      exact hnp
    · rw [hb, List.length_set]
      exact hlen
    · intro rr hrr
      rw [hb] at hrr
      rcases List.mem_or_eq_of_mem_set hrr with hmem | rfl
      · exact hrows _ hmem
      · rw [List.length_set]
        exact hrows _ (List.getElem?_mem hrow)
    · rw [hvc, hb, hcnt]
      have hpne : p ≠ NO_MOVE := by
        rw [hp]
        show ¬ s.whose_turn = (0 : Int)
        omega
      exact (occupiedCount_write hrow hcv hpne).symm
    · rw [hturn']
      omega

/-- Every reachable state is well-formed: the invariant holds at the
initial state and is preserved by every defined `MakeMove` call. -/
theorem reachable_wellFormed {N P : Int} {s : GameState}
    (h : Reachable N P s) : WellFormed N P s := by
  induction h with
  | init =>
    refine ⟨rfl, rfl, by simp [initState], ?_, ?_, by simp [initState]⟩
    · intro row hrow
      simp only [initState] at hrow
      rw [List.eq_of_mem_replicate hrow]
      simp
    · simp [initState, occupiedCount, rowCount, cellWeight, NO_MOVE,
        List.map_replicate, List.sum_replicate]
  | step _ hmm ih => exact wellFormed_step ih hmm

/-! ## Claim theorems -/

/-- C1: The claim states that `CheckForWin` returns Win iff some applicable
line through the just-played cell — full row, full column, or a completed
diagonal the cell lies on — is entirely the player's, a completed diagonal
alone being sufficient.  The code instead rechecks the **column** for the
diagonal flag (`board[idx][location.col]` on line 106 where the diagonal
cells were intended), so a completed main or anti-diagonal with incomplete
row and column yields `CONTINUE`, contradicting the claim and the code's own
`Check if diag..` comment: player 1 holds the whole main diagonal of
`[[1,0,0],[0,1,0],[0,0,1]]` after playing (2,2), and the whole anti-diagonal
of `[[0,0,1],[0,1,0],[1,0,0]]` after playing (2,0), yet neither is a win;
the full single-player game (1,0,0),(1,1,1),(1,2,2) ends with statuses
[0,0,0] instead of the claimed win status 1. -/
theorem checkForWin_misses_completed_diagonals :
    CheckForWin 3 [[1, 0, 0], [0, 1, 0], [0, 0, 1]] ⟨2, 2⟩ 1 =
        some MoveResult.CONTINUE ∧
    CheckForWin 3 [[0, 0, 1], [0, 1, 0], [1, 0, 0]] ⟨2, 0⟩ 1 =
        some MoveResult.CONTINUE ∧
    playTicTacToe (initState 3 1) [⟨1, 0, 0⟩, ⟨1, 1, 1⟩, ⟨1, 2, 2⟩] =
        some [0, 0, 0] := by
  refine ⟨by decide, by decide, by decide⟩

/-- C2: The claim states that once all `N²` cells are filled with no line
fully owned, the next attempted move yields Draw with status
`numPlayers + 1`.  In the code the `already_filled` check precedes the
full-board check and every in-bounds cell of a full board is occupied, so
that move is reported `INVALID` with status `-player` instead — the `DRAW`
branch is unreachable.  Witnessed on a 2×2 board with 4 players: after the
four accepted moves fill the board with four distinct marks (no line owned),
the fifth move returns status `-1`, not the claimed `numPlayers + 1 = 5`. -/
theorem full_board_next_move_invalid_not_draw :
    playTicTacToe (initState 2 4)
        [⟨1, 0, 0⟩, ⟨2, 0, 1⟩, ⟨3, 1, 0⟩, ⟨4, 1, 1⟩, ⟨1, 0, 0⟩] =
      some [0, 0, 0, 0, -1] := by decide

/-- C3: The claim states that an off-board move completes without any
out-of-bounds board access and returns Invalid.  The code computes
`already_filled` by reading `board[location.row][location.col]` before the
validity branch, so an off-board location is read out of bounds (undefined
behaviour, `none` in this embedding): on a fresh 3×3 single-player game the
move (3,0) does not complete a defined execution at all. -/
theorem makeMove_off_board_reads_out_of_bounds :
    MakeMove (initState 3 1) 1 ⟨3, 0⟩ = none := by decide

/-- C4: The claim states that construction succeeds for every `N ≥ 1` with
every board-row initialization an in-bounds write.  The member `board` is
default-constructed **empty**, and the constructor body assigns
`board[i] = initial_row` without resizing, so the very first assignment
`board[0]` is out of bounds (undefined behaviour): for every `N ≥ 1` the
embedded constructor yields no defined state. -/
theorem constructor_first_write_out_of_bounds (N P : Int) (h : 1 ≤ N) :
    TicTacToeConstructor N P = none := by
  unfold TicTacToeConstructor
  obtain ⟨n, hn⟩ : ∃ n, N.toNat = n + 1 := ⟨N.toNat - 1, by omega⟩
  rw [hn]
  simp [ctorLoop]

theorem constructor_first_write_out_of_bounds_witness :
    TicTacToeConstructor 3 2 = none :=
  constructor_first_write_out_of_bounds 3 2 (by decide)

/-- C5: On every defined `MakeMove` call, valid or invalid, the turn holder
advances circularly: `whose_turn` becomes `(whose_turn % num_players) + 1`
(C++ truncated `%`, `Int.tmod`); consequently, whenever `num_players ≥ 1`
and the pre-call holder lies in `[1, num_players]`, the post-call holder
lies in `[1, num_players]` as well. -/
theorem makeMove_turn_advance {s : GameState} {p : Player} {loc : Location}
    {r : MoveResult} {s' : GameState}
    (h : MakeMove s p loc = some (r, s')) :
    s'.whose_turn = Int.tmod s.whose_turn s.num_players + 1 ∧
    (1 ≤ s.num_players → 1 ≤ s.whose_turn → s.whose_turn ≤ s.num_players →
      1 ≤ s'.whose_turn ∧ s'.whose_turn ≤ s.num_players) := by
  obtain ⟨-, -, ht, -⟩ := makeMove_cases h
  refine ⟨ht, fun hP h1 _ => ?_⟩
  have hnn : 0 ≤ Int.tmod s.whose_turn s.num_players :=
    Int.tmod_nonneg _ (by omega)
  have hlt : Int.tmod s.whose_turn s.num_players < s.num_players :=
    Int.tmod_lt_of_pos _ (by omega)
  omega

theorem makeMove_turn_advance_witness :
    (⟨[[1, 0, 0], [0, 0, 0], [0, 0, 0]], 1, 3, 2, 2⟩ : GameState).whose_turn =
        Int.tmod (initState 3 2).whose_turn (initState 3 2).num_players + 1 ∧
      1 ≤ (⟨[[1, 0, 0], [0, 0, 0], [0, 0, 0]], 1, 3, 2, 2⟩ :
          GameState).whose_turn ∧
      (⟨[[1, 0, 0], [0, 0, 0], [0, 0, 0]], 1, 3, 2, 2⟩ :
          GameState).whose_turn ≤ (initState 3 2).num_players := by
  have h : MakeMove (initState 3 2) 1 ⟨0, 0⟩ =
      some (MoveResult.CONTINUE,
        ⟨[[1, 0, 0], [0, 0, 0], [0, 0, 0]], 1, 3, 2, 2⟩) := by decide
  have h2 := makeMove_turn_advance h
  exact ⟨h2.1, h2.2 (by decide) (by decide) (by decide)⟩

/-- C6: `ConvertMoveResultToGameResult` maps Win to the attempting player's
id, Draw to `num_players + 1` (`CATS_GAME`), Invalid to the negated player
id, and Continue to `NEXT_PLAYER = 0`. -/
theorem convertMoveResult_mapping (s : GameState) (p : Player) :
    ConvertMoveResultToGameResult s MoveResult.WIN p = p ∧
    ConvertMoveResultToGameResult s MoveResult.DRAW p = s.num_players + 1 ∧
    ConvertMoveResultToGameResult s MoveResult.INVALID p = -p ∧
    ConvertMoveResultToGameResult s MoveResult.CONTINUE p = 0 :=
  ⟨rfl, rfl, rfl, rfl⟩

/-- C10: The concrete scenario with board size 3 and one player: the moves
(1,0,0), (1,0,1), (1,0,2) produce exactly the statuses [0, 0, 1] — two
Continues and then a row win reported as the player id 1. -/
theorem playTicTacToe_row_win_scenario :
    playTicTacToe (initState 3 1) [⟨1, 0, 0⟩, ⟨1, 0, 1⟩, ⟨1, 0, 2⟩] =
      some [0, 0, 1] := by decide

/-- C8: A defined `MakeMove` call changes the board only when the move is
accepted, and then only by writing the moving player's id into the single
previously empty target cell (rejected moves — and the dead draw branch —
leave the board untouched); in every case a cell that is occupied before
the call holds the same value after it, so an occupied cell is never
cleared or overwritten by any later call, valid or invalid. -/
theorem makeMove_board_mutation {s : GameState} {p : Player} {loc : Location}
    {r : MoveResult} {s' : GameState}
    (h : MakeMove s p loc = some (r, s')) :
    (((r = MoveResult.INVALID ∨ r = MoveResult.DRAW) ∧ s'.board = s.board) ∨
      ((r = MoveResult.WIN ∨ r = MoveResult.CONTINUE) ∧
        vread s.board loc.row loc.col = some NO_MOVE ∧
        ∃ row, s.board[loc.row.toNat]? = some row ∧
          s'.board = s.board.set loc.row.toNat (row.set loc.col.toNat p))) ∧
    ∀ (r' c' : Int) (v : Player), v ≠ NO_MOVE →
      vread s.board r' c' = some v → vread s'.board r' c' = some v := by
  obtain ⟨-, -, -, hcases⟩ := makeMove_cases h
  rcases hcases with ⟨hb, -, hr⟩ | ⟨row, hr0, hc0, hrow, hcv, -, -, hb, -, hres⟩
  · exact ⟨Or.inl ⟨hr, hb⟩, fun r' c' v _ hv => hb ▸ hv⟩
  · refine ⟨Or.inr ⟨hres, vread_of_parts hr0 hc0 hrow hcv, row, hrow, hb⟩,
      fun r' c' v hvne hv => ?_⟩
    rw [hb]
    by_cases hhit : 0 ≤ r' ∧ 0 ≤ c' ∧ r'.toNat = loc.row.toNat ∧
        c'.toNat = loc.col.toNat
    · exfalso
      obtain ⟨row2, -, -, hrow2, hv2⟩ := vread_eq_some hv
      rw [hhit.2.2.1] at hrow2
      rw [hrow] at hrow2
      obtain rfl : row = row2 := Option.some.injEq _ _ ▸ hrow2
      rw [hhit.2.2.2] at hv2
      rw [hcv] at hv2
      exact hvne (Option.some.injEq _ _ ▸ hv2).symm
    · rw [vread_set_ne p hrow hhit]
      exact hv

theorem makeMove_board_mutation_witness :
    vread (⟨[[0, 2, 0], [0, 1, 0], [0, 0, 0]], 2, 3, 2, 1⟩ :
        GameState).board 1 1 = some 1 := by
  have h : MakeMove (⟨[[0, 0, 0], [0, 1, 0], [0, 0, 0]], 1, 3, 2, 2⟩ :
        GameState) 2 ⟨0, 1⟩ =
      some (MoveResult.CONTINUE,
        ⟨[[0, 2, 0], [0, 1, 0], [0, 0, 0]], 2, 3, 2, 1⟩) := by decide
  exact (makeMove_board_mutation h).2 1 1 1 (by decide) (by decide)

/-- C7: A defined run of `playTicTacToe` yields one status per processed
move in input order: no status before the last is positive (so a negative
Invalid status or a zero Continue status never halts the loop), an early
stop happens only with a positive final status, and if no positive status
occurs the run covers every move; a nonempty move list yields a nonempty
status list. -/
theorem playTicTacToe_halting_structure :
    ∀ (moves : List Move) (s : GameState) (statuses : List Int),
      playTicTacToe s moves = some statuses →
      statuses.length ≤ moves.length ∧
      (∀ x ∈ statuses.dropLast, x ≤ 0) ∧
      (statuses.length < moves.length → 0 < statuses.getLastD 0) ∧
      ((∀ x ∈ statuses, x ≤ 0) → statuses.length = moves.length) ∧
      (moves ≠ [] → statuses ≠ []) := by
  intro moves
  induction moves with
  | nil =>
    intro s statuses h
    simp only [playTicTacToe, Option.some.injEq] at h
    subst h
    simp
  | cons m rest ih =>
    intro s statuses h
    unfold playTicTacToe at h
    cases hmm : MakeMove s m.player ⟨m.row, m.col⟩ with
    | none => rw [hmm] at h; simp at h
    | some rs =>
      rw [hmm] at h
      simp only [Option.some_bind] at h
      rw [show NEXT_PLAYER = 0 from rfl] at h
      split at h
      · rename_i hpos
        simp only [Option.some.injEq] at h
        subst h
        refine ⟨by simp, by simp, fun _ => by simpa using hpos, ?_, by simp⟩
        intro hall
        exact absurd
          (hall (ConvertMoveResultToGameResult rs.2 rs.1 m.player) (by simp))
          (by omega)
      · rename_i hpos
        cases hrest : playTicTacToe rs.2 rest with
        | none => rw [hrest] at h; simp at h
        | some tl =>
          rw [hrest] at h
          simp only [Option.map_some', Option.some.injEq] at h
          subst h
          obtain ⟨ih1, ih2, ih3, ih4, ih5⟩ := ih rs.2 tl hrest
          have hst : ConvertMoveResultToGameResult rs.2 rs.1 m.player ≤ 0 := by
            omega
          refine ⟨by simpa using ih1, ?_, ?_, ?_, by simp⟩
          · intro x hx
            cases tl with
            | nil => simp at hx
            | cons t ts =>
              rw [List.dropLast_cons₂] at hx
              rcases List.mem_cons.mp hx with rfl | hx'
              · exact hst
              · exact ih2 x hx'
          · intro hlen
            have htl : tl.length < rest.length := by simpa using hlen
            have h3 := ih3 htl
            cases tl with
            | nil => simp at h3
            | cons t ts =>
              rw [List.getLastD_cons, List.getLastD_cons]
              rw [List.getLastD_cons] at h3
              exact h3
          · intro hall
            have : tl.length = rest.length :=
              ih4 (fun x hx => hall x (by simp [hx]))
            simp [this]

theorem playTicTacToe_halting_structure_witness :
    ([(0 : Int)].length ≤ [(⟨1, 0, 0⟩ : Move)].length) ∧
      (∀ x ∈ ([(0 : Int)]).dropLast, x ≤ 0) ∧
      (([(0 : Int)]).length < [(⟨1, 0, 0⟩ : Move)].length →
        0 < ([(0 : Int)]).getLastD 0) ∧
      ((∀ x ∈ [(0 : Int)], x ≤ 0) →
        ([(0 : Int)]).length = [(⟨1, 0, 0⟩ : Move)].length) ∧
      ([(⟨1, 0, 0⟩ : Move)] ≠ [] → [(0 : Int)] ≠ []) :=
  playTicTacToe_halting_structure [⟨1, 0, 0⟩] (initState 3 1) [0] (by decide)

/-- C9: From every reachable game state, a `MakeMove` call whose player is
the current expected turn holder and whose location is an in-bounds empty
cell is a defined execution returning Continue or Win — never Invalid and
never Draw. -/
theorem makeMove_expected_player_empty_cell {N P : Int} {s : GameState}
    (hreach : Reachable N P s) {p : Player} {loc : Location}
    (hp : p = s.whose_turn) (hr0 : 0 ≤ loc.row) (hrN : loc.row < s.board_size)
    (hc0 : 0 ≤ loc.col) (hcN : loc.col < s.board_size)
    (hempty : vread s.board loc.row loc.col = some NO_MOVE) :
    ∃ res s', MakeMove s p loc = some (res, s') ∧
      (res = MoveResult.CONTINUE ∨ res = MoveResult.WIN) := by
  obtain ⟨hbs, hnp, hlen, hrows, hcnt, hturn⟩ := reachable_wellFormed hreach
  obtain ⟨row, -, -, hrow, hcv⟩ := vread_eq_some hempty
  have hbpos : 0 < s.board_size := by omega
  have hcountlt : s.valid_move_count < (s.board_size * s.board_size).toNat := by
    have h1 : occupiedCount s.board < s.board.length * N.toNat :=
      occupiedCount_lt hrow hcv hrows
    rw [hlen] at h1
    have h3 : (s.board_size * s.board_size).toNat = N.toNat * N.toNat := by
      rw [hbs]
      obtain ⟨n, rfl⟩ : ∃ n : Nat, N = (n : Int) := ⟨N.toNat, by omega⟩
      rw [← Int.natCast_mul]
      simp only [Int.toNat_natCast]
    omega
  have hb2len :
      (s.board.set loc.row.toNat (row.set loc.col.toNat p)).length = N.toNat := by
    rw [List.length_set]
    exact hlen
  have hb2rows : ∀ rr ∈ s.board.set loc.row.toNat (row.set loc.col.toNat p),
      rr.length = N.toNat := by
    intro rr hrr
    rcases List.mem_or_eq_of_mem_set hrr with hmem | rfl
    · exact hrows _ hmem
    · rw [List.length_set]
      exact hrows _ (List.getElem?_mem hrow)
  have hsome := checkLoop_isSome (p := p) hb2len hb2rows hr0 (by omega) hc0
    (by omega) s.board_size.toNat 0 (by omega) true true
    ((loc.row == loc.col) || (loc.row == s.board_size - loc.col - 1))
  obtain ⟨res, hres0⟩ := Option.isSome_iff_exists.mp hsome
  have hres : CheckForWin s.board_size
      (s.board.set loc.row.toNat (row.set loc.col.toNat p)) loc p =
        some res := hres0
  refine ⟨res,
    applyWrite (advanceTurn s) (s.board.set loc.row.toNat (row.set loc.col.toNat p)),
    ?_, Or.symm (checkForWin_result hres)⟩
  have hw : (p != s.whose_turn) = false := by
    rw [hp]
    exact bne_self_eq_false _
  have ho1 : IsOffBoard s.board_size loc.row = false := by
    simp only [IsOffBoard, Bool.or_eq_false_iff, decide_eq_false_iff_not]
    exact ⟨by omega, by omega⟩
  have ho2 : IsOffBoard s.board_size loc.col = false := by
    simp only [IsOffBoard, Bool.or_eq_false_iff, decide_eq_false_iff_not]
    exact ⟨by omega, by omega⟩
  unfold MakeMove
  simp only [advanceTurn_board, advanceTurn_board_size, advanceTurn_num_players,
    advanceTurn_valid_move_count, applyWrite_board, applyWrite_board_size]
  rw [hempty]
  simp only [Option.some_bind]
  simp only [hw, ho1, ho2, bne_self_eq_false, Bool.or_false, Bool.false_or,
    Bool.or_self, Bool.false_eq_true, if_false]
  rw [if_neg (by omega)]
  rw [vwrite_of_parts p hr0 hc0 hrow hcv]
  simp only [Option.some_bind]
  rw [hres]
  simp only [Option.map_some']

theorem makeMove_expected_player_empty_cell_witness :
    ∃ res s', MakeMove (initState 3 2) 1 ⟨0, 0⟩ = some (res, s') ∧
      (res = MoveResult.CONTINUE ∨ res = MoveResult.WIN) :=
  makeMove_expected_player_empty_cell Reachable.init rfl (by decide) (by decide)
    (by decide) (by decide) (by decide)
